import Mathlib

/-!
Verification development for the predictive-maintenance model-training
notebook (`src/Notebooks/ModelTraining.ipynb`).  The notebook's core logic
is a train/test splitter (time-based or asset-ID-based) and a class
balancer built around synthetic minority oversampling.  Definitions below
are a shallow embedding of the notebook's code cells; library behaviour
that the notebook merely invokes (scikit-learn's `train_test_split`
internals, imblearn's `SMOTE`) is modelled from the specification, as
flagged in the corresponding doc comments.
-/

namespace ModelTraining

/-- A feature vector: the numeric feature columns of one row. -/
abbrev Vec := List ℚ

/-- One row of the concatenated feature table: one (entity, cycle)
observation with its identifying columns, label and numeric features. -/
structure Row where
  entryID : Int
  machineID : Nat
  sequenceID : Int
  cycle : Int
  rul : Int
  immediate_failure : String
  features : Vec
deriving DecidableEq

/-! ### Label counting (the `Counter` / `most_common` cell) -/

/-- First-occurrence deduplication: the distinct elements of `l` in order
of first appearance, mirroring insertion order of a Python `Counter`. -/
def uniqueFirstAux [DecidableEq α] (seen : List α) : List α → List α
  | [] => []
  | a :: l => if a ∈ seen then uniqueFirstAux seen l else a :: uniqueFirstAux (a :: seen) l

/-- Distinct elements of a list, first occurrences first. -/
def uniqueFirst [DecidableEq α] (l : List α) : List α := uniqueFirstAux [] l

/-- The most frequent label (`Counter(Y_train).most_common(1)`); ties go to
the first-seen label, as in a stable sort of `Counter` items. -/
def majority_class (Y : List String) : String :=
  match uniqueFirst Y with
  | [] => ""
  | l :: ls => ls.foldl (fun best x => if Y.count best < Y.count x then x else best) l

/-- All distinct labels other than the majority one
(`all_classes.most_common()[1:]`, as a set of labels). -/
def minority_classes (Y : List String) : List String :=
  (uniqueFirst Y).filter (fun l => l ≠ majority_class Y)

/-- Total number of minority-label rows
(`sum([c[1] for c in minority_classes])`). -/
def minority_classes_size (Y : List String) : Nat :=
  ((minority_classes Y).map (fun l => Y.count l)).sum

/-- Desired minority total: `Y_train.count() * target_minority_fraction`
(the notebook hard-codes the fraction `0.1`; it is a documented
configuration constant, kept as a parameter here). -/
def desired_minority_classes_size (tmf : ℚ) (Y : List String) : ℚ :=
  (Y.length : ℚ) * tmf

/-- The oversampling scale `desired_minority_classes_size / minority_classes_size`. -/
def scale (tmf : ℚ) (Y : List String) : ℚ :=
  desired_minority_classes_size tmf Y / (minority_classes_size Y : ℚ)

/-- Per-label oversampling target `int(count(l) * scale)` from the `ratio`
dictionary (Python `int` truncates; counts and scale are nonnegative, so
this is a floor). -/
def targetCount (tmf : ℚ) (Y : List String) (l : String) : Nat :=
  (⌊(Y.count l : ℚ) * scale tmf Y⌋).toNat

/-- Number of samples to synthesize for label `l`. -/
def numSynthFor (tmf : ℚ) (Y : List String) (l : String) : Nat :=
  targetCount tmf Y l - Y.count l

/-! ### Synthetic oversampling (the `SMOTE` call) -/

/-- Feature vectors of the rows carrying label `l`. -/
def sameLabel (X : List Vec) (Y : List String) (l : String) : List Vec :=
  (X.zip Y).filterMap (fun p => if p.2 = l then some p.1 else none)

/-- A linear congruential step standing in for the seeded random number
generator threaded through the oversampler. -/
def lcg (s : Nat) : Nat := (s * 1103515245 + 12345) % 2147483648

/-- The point at parameter `t` on the segment from `u` to `v`. -/
def interp (u v : Vec) (t : ℚ) : Vec :=
  List.zipWith (fun a b => a + t * (b - a)) u v

/-- Modelled from the spec: imblearn's `SMOTE` synthesis step is not part of
this repository; per the spec it picks a real minority sample, one of its
same-class neighbours, and generates a new sample at a random point on the
segment between them.  The random choices are driven deterministically by
the seed `s`. -/
def synthOne (pts : List Vec) (s : Nat) : Vec :=
  let n := pts.length
  let t : ℚ := ((lcg (lcg s) % 11 : Nat) : ℚ) / 10
  interp (pts.getD (s % n) []) (pts.getD (lcg s % n) []) t

/-- `k` synthetic samples drawn from `pts`, threading the seed. -/
def synthMany (pts : List Vec) (s : Nat) : Nat → List Vec
  | 0 => []
  | k + 1 => synthOne pts s :: synthMany pts (lcg s) k

/-- Synthetic features and labels for each minority label in turn. -/
def synthAll (tmf : ℚ) (X : List Vec) (Y : List String) :
    List String → Nat → List Vec × List String
  | [], _ => ([], [])
  | l :: ls, s =>
    let pts := sameLabel X Y l
    let k := numSynthFor tmf Y l
    let rest := synthAll tmf X Y ls (lcg s)
    (synthMany pts s k ++ rest.1, List.replicate k l ++ rest.2)

/-- All synthetic samples produced by one balancing run (empty when
`scale <= 1`, i.e. when the `ratio = None` no-op path is taken). -/
def synthSamples (tmf : ℚ) (seed : Nat) (X : List Vec) (Y : List String) :
    List Vec × List String :=
  if scale tmf Y ≤ 1 then ([], [])
  else synthAll tmf X Y (minority_classes Y) seed

/-- The balancing cell: compute `scale`; if `scale <= 1` the input is
returned unchanged (the `ratio = None` path, modelled from the spec since
`SMOTE` itself is library code), otherwise each minority label is
oversampled to `int(count * scale)` and the synthetic rows are appended
after the originals. -/
def balance (tmf : ℚ) (seed : Nat) (X : List Vec) (Y : List String) :
    List Vec × List String :=
  if scale tmf Y ≤ 1 then (X, Y)
  else
    let s := synthAll tmf X Y (minority_classes Y) seed
    (X ++ s.1, Y ++ s.2)

/-- The error taxonomy of the spec's pipeline contract. -/
inductive PipelineError where
  | InvalidConfiguration
  | EmptyDataset
  | InsufficientNeighbors
deriving DecidableEq

/-- Modelled from the spec: the notebook performs no input validation (its
fraction constants are hard-coded and failures surface from library code);
the spec's `balance` contract rejects a `target_minority_fraction` outside
`(0, 1)` with `InvalidConfiguration` and a minority class of fewer than 2
members with `InsufficientNeighbors`. -/
def balanceChecked (tmf : ℚ) (seed : Nat) (X : List Vec) (Y : List String) :
    Except PipelineError (List Vec × List String) :=
  if tmf ≤ 0 ∨ 1 ≤ tmf then .error .InvalidConfiguration
  else if (minority_classes Y).any (fun l => Y.count l < 2) then
    .error .InsufficientNeighbors
  else .ok (balance tmf seed X Y)

/-! ### Train/test split (the `time_split` / asset-ID cell) -/

/-- Sorting the dataset by `entryID`
(`data.set_index(['entryID']); data.sort_index()`). -/
def sortByEntryID (d : List Row) : List Row :=
  List.insertionSort (fun a b => a.entryID ≤ b.entryID) d

/-- Number of test rows drawn by `train_test_split` for a float
`test_size`: the ceiling of `test_size * n`. -/
def nTestRows (tf : ℚ) (n : Nat) : Nat := (⌈tf * (n : ℚ)⌉).toNat

/-- The rough non-shuffled cut: after sorting by `entryID`, the last
`test_size` fraction of rows is test, the rest train
(`train_test_split(data, test_size=test_size, shuffle=False)`). -/
def roughCut (tf : ℚ) (d : List Row) : List Row × List Row :=
  let s := sortByEntryID d
  let k := s.length - nTestRows tf s.length
  (s.take k, s.drop k)

/-- Minimum cycle among an entity's rows in the test split
(`test.reset_index().groupby(['machineID']).cycle.min()`); `none` when the
entity has no test rows (the `isna` case after the join). -/
def min_test_cycle (test : List Row) (m : Nat) : Option Int :=
  (test.filterMap (fun r => if r.machineID = m then some r.cycle else none)).min?

/-- The leakage-trimming filter: a training row survives iff its entity has
no test rows, or its cycle is below the entity's minimum test cycle minus
`lookback` (`t[t.max_cycle.isna() | (t.cycle < t.max_cycle)]`). -/
def trimLeakage (lookback : Int) (train test : List Row) : List Row :=
  train.filter (fun r =>
    match min_test_cycle test r.machineID with
    | none => true
    | some c => decide (r.cycle < c - lookback))

/-- The time-dependent split branch: rough cut, then leakage trimming of
the training portion. -/
def time_split_op (lookback : Int) (tf : ℚ) (d : List Row) :
    List Row × List Row :=
  let p := roughCut tf d
  (trimLeakage lookback p.1 p.2, p.2)

/-- Distinct machine identifiers in first-occurrence order
(`data.reset_index().machineID.unique()`). -/
def unique_assets (d : List Row) : List Nat :=
  uniqueFirst (d.map (fun r => r.machineID))

/-- Modelled from the spec: scikit-learn's seeded shuffle inside
`train_test_split(unique_assets, ...)` is library code; the spec only
requires a seed-reproducible random permutation of the distinct entity
identifiers, modelled here as a deterministic rotation by the seed. -/
def shuffleAssets (seed : Nat) (assets : List Nat) : List Nat :=
  assets.rotate seed

/-- The drawn `(train_assets, test_assets)` pair: the shuffled distinct
assets are cut so that `ceil(test_size * count)` of them form the test
subset. -/
def splitAssets (seed : Nat) (tf : ℚ) (d : List Row) : List Nat × List Nat :=
  let sh := shuffleAssets seed (unique_assets d)
  let k := nTestRows tf sh.length
  (sh.drop k, sh.take k)

/-- The asset-ID-based split branch: rows whose `machineID` is among the
drawn training assets go to train, rows whose `machineID` is among the
drawn test assets go to test. -/
def asset_split_op (seed : Nat) (tf : ℚ) (d : List Row) :
    List Row × List Row :=
  let p := splitAssets seed tf d
  (d.filter (fun r => decide (r.machineID ∈ p.1)),
   d.filter (fun r => decide (r.machineID ∈ p.2)))

/-- The machine identifiers of a split's rows. -/
def entityIDs (rows : List Row) : List Nat := rows.map (fun r => r.machineID)

/-- Modelled from the spec: the notebook hard-codes `test_size = 0.2` and
performs no validation; the spec's `split` contract rejects a
`test_fraction` outside `(0, 1)` with `InvalidConfiguration` and an empty
dataset with `EmptyDataset`, and only otherwise produces a train/test
pair. -/
def split (time_split : Bool) (tf : ℚ) (lookback : Int) (seed : Nat)
    (d : List Row) : Except PipelineError (List Row × List Row) :=
  if tf ≤ 0 ∨ 1 ≤ tf then .error .InvalidConfiguration
  else if d.isEmpty then .error .EmptyDataset
  else .ok (if time_split then time_split_op lookback tf d
            else asset_split_op seed tf d)

/-! ### Feature/label separation (the `xy_split` cell) -/

/-- A cell value of the tabular data. -/
inductive Val where
  | intV : Int → Val
  | strV : String → Val
  | ratV : ℚ → Val
deriving DecidableEq

/-- A data frame: named columns and row-major values. -/
structure Frame where
  cols : List String
  rows : List (List Val)
deriving DecidableEq

/-- Remove the values of the named columns from one row. -/
def dropRowCols (cols names : List String) (r : List Val) : List Val :=
  ((cols.zip r).filter (fun p => decide (p.1 ∉ names))).map (fun p => p.2)

/-- `data.drop(names, axis=1)`: remove the named columns. -/
def dropColumns (names : List String) (f : Frame) : Frame :=
  ⟨f.cols.filter (fun c => decide (c ∉ names)),
   f.rows.map (dropRowCols f.cols names)⟩

/-- `data[name]`: the named column's values in row order. -/
def getColumn (f : Frame) (name : String) : List Val :=
  f.rows.map (fun r => ((f.cols.zip r).lookup name).getD (.strV ""))

/-- The columns dropped by `xy_split`. -/
def columns_to_drop : List String :=
  ["cycle", "immediate_failure", "rul", "sequenceID", "machineID"]

/-- The `xy_split` cell: drop the label, identifier and time columns from
the feature table, and return the `immediate_failure` column as labels. -/
def xy_split (data : Frame) : Frame × List Val :=
  (dropColumns columns_to_drop data, getColumn data "immediate_failure")

/-! ### Convex-hull membership for synthesized samples -/

/-- Membership in the convex hull of a list of feature vectors, presented
as closure of the base points under segment interpolation: every element
of this predicate is a convex combination of points of `pts`. -/
inductive InHull (pts : List Vec) : Vec → Prop
  | base {v : Vec} : v ∈ pts → InHull pts v
  | seg {u v : Vec} {t : ℚ} : InHull pts u → InHull pts v → 0 ≤ t → t ≤ 1 →
      InHull pts (interp u v t)

/-! ### Concrete fixtures used to instantiate the theorems -/

/-- A row with the given entry identifier, machine identifier and cycle. -/
def mkRow (e : Int) (m : Nat) (c : Int) : Row :=
  ⟨e, m, 0, c, 0, "", []⟩

/-- A four-row dataset with two machines for the time-based split. -/
def dTime : List Row := [mkRow 0 1 1, mkRow 1 2 1, mkRow 2 2 5, mkRow 3 2 6]

/-- A three-machine dataset for the entity-based split. -/
def dAssets : List Row := [mkRow 0 1 1, mkRow 1 2 1, mkRow 2 3 1]

/-- A ten-machine dataset for the `test_fraction = 0.2` scenario. -/
def dTen : List Row :=
  [mkRow 0 1 1, mkRow 1 2 1, mkRow 2 3 1, mkRow 3 4 1, mkRow 4 5 1,
   mkRow 5 6 1, mkRow 6 7 1, mkRow 7 8 1, mkRow 8 9 1, mkRow 9 10 1]

/-- The label column of the spec's balancing scenario:
100 majority rows, 5 of `F1`, 3 of `F2`. -/
def Y5 : List String :=
  List.replicate 100 "" ++ (List.replicate 5 "F1" ++ List.replicate 3 "F2")

/-- Feature vectors paired with `Y5`. -/
def X5 : List Vec := List.replicate 108 [0]

/-- Feature vectors of a small imbalanced input with `scale > 1`. -/
def X6 : List Vec := [[0], [1], [2], [10]]

/-- Labels of the small imbalanced input. -/
def Y6 : List String := ["", "", "F", "F"]

/-! ### Helper lemmas -/

theorem balance_eq_of_scale_le_one {tmf : ℚ} (seed : Nat) (X : List Vec)
    (Y : List String) (h : scale tmf Y ≤ 1) : balance tmf seed X Y = (X, Y) := by
  simp [balance, h]

theorem mem_uniqueFirstAux [DecidableEq α] {a : α} :
    ∀ (l seen : List α), a ∈ uniqueFirstAux seen l ↔ a ∈ l ∧ a ∉ seen := by
  intro l
  induction l with
  | nil => intro seen; simp [uniqueFirstAux]
  | cons b l ih =>
    intro seen
    by_cases hb : b ∈ seen
    · rw [uniqueFirstAux, if_pos hb, ih]
      constructor
      · rintro ⟨h1, h2⟩
        exact ⟨List.mem_cons_of_mem _ h1, h2⟩
      · rintro ⟨h1, h2⟩
        rcases List.mem_cons.mp h1 with h1 | h1
        · exact absurd (h1 ▸ hb) h2
        · exact ⟨h1, h2⟩
    · rw [uniqueFirstAux, if_neg hb]
      simp only [List.mem_cons, ih, not_or]
      constructor
      · rintro (rfl | ⟨h1, h2, h3⟩)
        · exact ⟨Or.inl rfl, hb⟩
        · exact ⟨Or.inr h1, h3⟩
      · rintro ⟨h1, h2⟩
        by_cases hab : a = b
        · exact Or.inl hab
        · rcases h1 with h1 | h1
          · exact absurd h1 hab
          · exact Or.inr ⟨h1, hab, h2⟩

theorem mem_uniqueFirst [DecidableEq α] {a : α} {l : List α} :
    a ∈ uniqueFirst l ↔ a ∈ l := by
  rw [uniqueFirst, mem_uniqueFirstAux]
  simp

theorem nodup_uniqueFirstAux [DecidableEq α] :
    ∀ (l seen : List α), (uniqueFirstAux seen l).Nodup := by
  intro l
  induction l with
  | nil => intro seen; simp [uniqueFirstAux]
  | cons b l ih =>
    intro seen
    by_cases hb : b ∈ seen
    · rw [uniqueFirstAux, if_pos hb]; exact ih seen
    · rw [uniqueFirstAux, if_neg hb]
      refine List.nodup_cons.mpr ⟨fun hmem => ?_, ih (b :: seen)⟩
      have := (mem_uniqueFirstAux l (b :: seen)).mp hmem
      exact this.2 (List.mem_cons_self b seen)

theorem nodup_uniqueFirst [DecidableEq α] (l : List α) :
    (uniqueFirst l).Nodup :=
  nodup_uniqueFirstAux l []

/-! ### Claim theorems: balancer no-op regime -/

/-- C1: whenever the computed `scale` is at most 1, the balance operation
performs no oversampling and returns its input unchanged; in particular a
`target_minority_fraction` equal to the current minority fraction gives
`scale = 1` and no synthesis. -/
theorem balance_noop_of_scale_le_one :
    (∀ (tmf : ℚ) (seed : Nat) (X : List Vec) (Y : List String),
        scale tmf Y ≤ 1 → balance tmf seed X Y = (X, Y)) ∧
    (∀ (tmf : ℚ) (seed : Nat) (X : List Vec) (Y : List String),
        0 < Y.length → minority_classes_size Y ≠ 0 →
        tmf = (minority_classes_size Y : ℚ) / (Y.length : ℚ) →
        scale tmf Y = 1 ∧ balance tmf seed X Y = (X, Y)) := by
  constructor
  · intro tmf seed X Y h
    exact balance_eq_of_scale_le_one seed X Y h
  · intro tmf seed X Y hn hm htmf
    have hn' : (Y.length : ℚ) ≠ 0 := by positivity
    have hm' : ((minority_classes_size Y : ℚ)) ≠ 0 := by
      exact_mod_cast hm
    have hscale : scale tmf Y = 1 := by
      rw [scale, desired_minority_classes_size, htmf]
      field_simp
    exact ⟨hscale, balance_eq_of_scale_le_one seed X Y (le_of_eq hscale)⟩

theorem balance_noop_of_scale_le_one_witness :
    (balance (1/10) 0 [[0], [1]] ["", "F1"] = ([[0], [1]], ["", "F1"])) ∧
    (scale (1/2) ["", "F1"] = 1 ∧
      balance (1/2) 7 [[0], [1]] ["", "F1"] = ([[0], [1]], ["", "F1"])) := by
  have hsize : minority_classes_size ["", "F1"] = 1 := by decide
  constructor
  · refine balance_noop_of_scale_le_one.1 (1/10) 0 [[0], [1]] ["", "F1"] ?_
    rw [scale, desired_minority_classes_size, hsize]
    norm_num
  · refine balance_noop_of_scale_le_one.2 (1/2) 7 [[0], [1]] ["", "F1"]
      (by decide) (by decide) ?_
    rw [hsize]
    norm_num

/-- C7: if `scale <= 1`, balancing is a no-op, hence applying balance twice
returns the original input unchanged (idempotence in the no-op regime). -/
theorem balance_idempotent_of_scale_le_one (tmf : ℚ) (s1 s2 : Nat)
    (X : List Vec) (Y : List String) (h : scale tmf Y ≤ 1) :
    balance tmf s2 (balance tmf s1 X Y).1 (balance tmf s1 X Y).2 = (X, Y) ∧
    balance tmf s1 X Y = (X, Y) := by
  have h1 := balance_eq_of_scale_le_one s1 X Y h
  refine ⟨?_, h1⟩
  rw [h1]
  exact balance_eq_of_scale_le_one s2 X Y h

theorem balance_idempotent_of_scale_le_one_witness :
    balance (1/10) 5 (balance (1/10) 3 [[2], [3]] ["", "F1"]).1
        (balance (1/10) 3 [[2], [3]] ["", "F1"]).2 = ([[2], [3]], ["", "F1"]) ∧
    balance (1/10) 3 [[2], [3]] ["", "F1"] = ([[2], [3]], ["", "F1"]) := by
  refine balance_idempotent_of_scale_le_one (1/10) 3 5 [[2], [3]] ["", "F1"] ?_
  have hsize : minority_classes_size ["", "F1"] = 1 := by decide
  rw [scale, desired_minority_classes_size, hsize]
  norm_num

/-! ### Claim theorems: error handling -/

/-- C4: the split operation fails with `InvalidConfiguration` for every
`test_fraction` outside the open interval `(0, 1)` and with `EmptyDataset`
for every empty dataset; in either case the error is propagated and no
train/test pair is produced. -/
theorem split_error_handling :
    (∀ (ts : Bool) (tf : ℚ) (lb : Int) (seed : Nat) (d : List Row),
        tf ≤ 0 ∨ 1 ≤ tf →
        split ts tf lb seed d = .error .InvalidConfiguration) ∧
    (∀ (ts : Bool) (tf : ℚ) (lb : Int) (seed : Nat) (d : List Row),
        0 < tf → tf < 1 → d = [] →
        split ts tf lb seed d = .error .EmptyDataset) ∧
    (∀ (ts : Bool) (tf : ℚ) (lb : Int) (seed : Nat) (d : List Row)
        (e : PipelineError), split ts tf lb seed d = .error e →
        ∀ p, split ts tf lb seed d ≠ .ok p) := by
  refine ⟨?_, ?_, ?_⟩
  · intro ts tf lb seed d h
    rw [split, if_pos h]
  · intro ts tf lb seed d h1 h2 hd
    subst hd
    rw [split, if_neg (by push_neg; exact ⟨h1, h2⟩)]
    rfl
  · intro ts tf lb seed d e he p hp
    rw [he] at hp
    exact Except.noConfusion hp

theorem split_error_handling_witness :
    split true (3/2) 5 42 [] = .error .InvalidConfiguration ∧
    split false (1/5) 5 42 [] = .error .EmptyDataset ∧
    ∀ p, split false (1/5) 5 42 [] ≠ .ok p := by
  refine ⟨split_error_handling.1 true (3/2) 5 42 [] (by norm_num),
    split_error_handling.2.1 false (1/5) 5 42 [] (by norm_num) (by norm_num) rfl,
    split_error_handling.2.2 false (1/5) 5 42 [] .EmptyDataset
      (split_error_handling.2.1 false (1/5) 5 42 [] (by norm_num) (by norm_num) rfl)⟩

/-- C9: the balance operation fails with `InsufficientNeighbors` whenever
some minority class has fewer than 2 members (under a valid target
fraction), and with `InvalidConfiguration` for every
`target_minority_fraction` outside the open interval `(0, 1)`. -/
theorem balance_error_handling :
    (∀ (tmf : ℚ) (seed : Nat) (X : List Vec) (Y : List String),
        tmf ≤ 0 ∨ 1 ≤ tmf →
        balanceChecked tmf seed X Y = .error .InvalidConfiguration) ∧
    (∀ (tmf : ℚ) (seed : Nat) (X : List Vec) (Y : List String),
        0 < tmf → tmf < 1 →
        (∃ l ∈ minority_classes Y, Y.count l < 2) →
        balanceChecked tmf seed X Y = .error .InsufficientNeighbors) := by
  constructor
  · intro tmf seed X Y h
    rw [balanceChecked, if_pos h]
  · intro tmf seed X Y h1 h2 hex
    rw [balanceChecked, if_neg (by push_neg; exact ⟨h1, h2⟩), if_pos]
    rw [List.any_eq_true]
    obtain ⟨l, hl, hc⟩ := hex
    exact ⟨l, hl, by simpa using hc⟩

theorem balance_error_handling_witness :
    balanceChecked (3/2) 0 [[0], [1], [2]] ["", "", "F1"] =
      .error .InvalidConfiguration ∧
    balanceChecked (1/10) 0 [[0], [1], [2]] ["", "", "F1"] =
      .error .InsufficientNeighbors := by
  refine ⟨balance_error_handling.1 (3/2) 0 _ _ (by norm_num),
    balance_error_handling.2 (1/10) 0 _ _ (by norm_num) (by norm_num)
      ⟨"F1", by decide, by decide⟩⟩

/-! ### Claim theorems: feature/label separation -/

/-- C10: the feature table returned by `xy_split` contains none of the
columns `cycle`, `immediate_failure`, `rul`, `sequenceID`, `machineID`,
and the returned label vector is exactly the input's `immediate_failure`
column in row order. -/
theorem xy_split_drops_leaky_columns (data : Frame) :
    (∀ c ∈ (xy_split data).1.cols, c ∉ columns_to_drop) ∧
    (xy_split data).2 =
      data.rows.map
        (fun r => ((data.cols.zip r).lookup "immediate_failure").getD (.strV "")) := by
  refine ⟨?_, rfl⟩
  intro c hc
  rw [xy_split] at hc
  simp only [dropColumns, List.mem_filter, decide_eq_true_eq] at hc
  exact hc.2

theorem xy_split_drops_leaky_columns_witness :
    "s1" ∉ columns_to_drop := by
  refine (xy_split_drops_leaky_columns
    ⟨["machineID", "s1", "cycle", "immediate_failure"],
     [[.intV 1, .intV 7, .intV 3, .strV ""]]⟩).1 "s1" ?_
  decide

/-! ### Claim theorems: time-based split leakage trimming -/

theorem min_test_cycle_isSome_iff (test : List Row) (m : Nat) :
    (min_test_cycle test m).isSome ↔ ∃ r ∈ test, r.machineID = m := by
  rw [min_test_cycle]
  rcases hl : test.filterMap
      (fun r => if r.machineID = m then some r.cycle else none) with _ | ⟨a, l⟩
  · rw [hl]
    simp only [List.min?, Option.isSome_none, Bool.false_eq_true, false_iff]
    rintro ⟨r, hr, hm⟩
    have := List.filterMap_eq_nil_iff.mp hl r hr
    rw [if_pos hm] at this
    exact Option.noConfusion this
  · rw [hl]
    simp only [List.min?, Option.isSome_some, true_iff]
    have ha : a ∈ test.filterMap
        (fun r => if r.machineID = m then some r.cycle else none) := by
      rw [hl]; exact List.mem_cons_self a l
    obtain ⟨r, hr, hf⟩ := List.mem_filterMap.mp ha
    by_cases hm : r.machineID = m
    · exact ⟨r, hr, hm⟩
    · rw [if_neg hm] at hf
      exact Option.noConfusion hf

/-- C2: in every time-based split, a retained training row whose entity
also has rows in the test split has cycle strictly below that entity's
minimum test cycle minus `lookback`, and every rough-cut training row of
an entity absent from the test split is retained; having test rows is
exactly `min_test_cycle` being defined. -/
theorem time_split_no_leakage (lookback : Int) (tf : ℚ) (d : List Row) :
    ((time_split_op lookback tf d).2 = (roughCut tf d).2) ∧
    (∀ r ∈ (time_split_op lookback tf d).1, ∀ m : Int,
        min_test_cycle (roughCut tf d).2 r.machineID = some m →
        r.cycle < m - lookback) ∧
    (∀ r ∈ (roughCut tf d).1,
        min_test_cycle (roughCut tf d).2 r.machineID = none →
        r ∈ (time_split_op lookback tf d).1) ∧
    (∀ m : Nat, (min_test_cycle (roughCut tf d).2 m).isSome ↔
        ∃ r ∈ (roughCut tf d).2, r.machineID = m) := by
  refine ⟨rfl, ?_, ?_, fun m => min_test_cycle_isSome_iff _ m⟩
  · intro r hr m hm
    have hmem : r ∈ trimLeakage lookback (roughCut tf d).1 (roughCut tf d).2 := hr
    rw [trimLeakage, List.mem_filter] at hmem
    have hp := hmem.2
    rw [hm] at hp
    simpa using hp
  · intro r hr hnone
    show r ∈ trimLeakage lookback (roughCut tf d).1 (roughCut tf d).2
    rw [trimLeakage, List.mem_filter]
    refine ⟨hr, ?_⟩
    rw [hnone]

theorem time_split_no_leakage_witness :
    (mkRow 1 2 1).cycle < 5 - 2 ∧
    mkRow 0 1 1 ∈ (time_split_op 2 (1/2) dTime).1 ∧
    ((min_test_cycle (roughCut (1/2) dTime).2 2).isSome ↔
      ∃ r ∈ (roughCut (1/2) dTime).2, r.machineID = 2) := by
  have hsort : sortByEntryID dTime = dTime := by decide
  have hn : nTestRows (1/2) 4 = 2 := by
    rw [nTestRows]
    norm_num
    rfl
  have hcut : roughCut (1/2) dTime =
      ([mkRow 0 1 1, mkRow 1 2 1], [mkRow 2 2 5, mkRow 3 2 6]) := by
    show ((sortByEntryID dTime).take
            ((sortByEntryID dTime).length - nTestRows (1/2) (sortByEntryID dTime).length),
          (sortByEntryID dTime).drop
            ((sortByEntryID dTime).length - nTestRows (1/2) (sortByEntryID dTime).length)) = _
    rw [hsort, show dTime.length = 4 from rfl, hn]
    decide
  have hsplit : (time_split_op 2 (1/2) dTime).1 = [mkRow 0 1 1, mkRow 1 2 1] := by
    show trimLeakage 2 (roughCut (1/2) dTime).1 (roughCut (1/2) dTime).2 = _
    rw [hcut]
    decide
  refine ⟨(time_split_no_leakage 2 (1/2) dTime).2.1 (mkRow 1 2 1) ?_ 5 ?_,
          (time_split_no_leakage 2 (1/2) dTime).2.2.1 (mkRow 0 1 1) ?_ ?_,
          (time_split_no_leakage 2 (1/2) dTime).2.2.2 2⟩
  · rw [hsplit]
    decide
  · rw [hcut]
    decide
  · rw [hcut]
    decide
  · rw [hcut]
    decide

/-! ### Claim theorems: entity-based split -/

theorem mem_entityIDs_filter {d : List Row} {A : List Nat} {m : Nat} :
    m ∈ entityIDs (d.filter (fun r => decide (r.machineID ∈ A))) ↔
    ∃ r ∈ d, r.machineID = m ∧ m ∈ A := by
  rw [entityIDs, List.mem_map]
  constructor
  · rintro ⟨r, hr, rfl⟩
    rw [List.mem_filter] at hr
    exact ⟨r, hr.1, rfl, of_decide_eq_true hr.2⟩
  · rintro ⟨r, hr, rfl, hA⟩
    exact ⟨r, List.mem_filter.mpr ⟨hr, decide_eq_true hA⟩, rfl⟩

theorem mem_unique_assets {d : List Row} {m : Nat} :
    m ∈ unique_assets d ↔ ∃ r ∈ d, r.machineID = m := by
  rw [unique_assets, mem_uniqueFirst, List.mem_map]

theorem shuffled_assets_nodup (seed : Nat) (d : List Row) :
    (shuffleAssets seed (unique_assets d)).Nodup := by
  rw [shuffleAssets]
  exact ((unique_assets d).rotate_perm seed).nodup_iff.mpr
    (nodup_uniqueFirst _)

theorem splitAssets_disjoint (seed : Nat) (tf : ℚ) (d : List Row) :
    (splitAssets seed tf d).2.Disjoint (splitAssets seed tf d).1 := by
  have h := shuffled_assets_nodup seed d
  rw [← List.take_append_drop
    (nTestRows tf (shuffleAssets seed (unique_assets d)).length)
    (shuffleAssets seed (unique_assets d))] at h
  exact (List.nodup_append.mp h).2.2

theorem mem_splitAssets_iff {seed : Nat} {tf : ℚ} {d : List Row} {m : Nat} :
    m ∈ unique_assets d ↔
    (m ∈ (splitAssets seed tf d).1 ∨ m ∈ (splitAssets seed tf d).2) := by
  have hperm := ((unique_assets d).rotate_perm seed).mem_iff (a := m)
  constructor
  · intro hm
    have hsh : m ∈ shuffleAssets seed (unique_assets d) := by
      rw [shuffleAssets]
      exact hperm.mpr hm
    rw [← List.take_append_drop
      (nTestRows tf (shuffleAssets seed (unique_assets d)).length)
      (shuffleAssets seed (unique_assets d)), List.mem_append] at hsh
    exact hsh.symm
  · intro hm
    have hsh : m ∈ shuffleAssets seed (unique_assets d) := by
      rcases hm with hm | hm
      · exact List.mem_of_mem_drop hm
      · exact List.mem_of_mem_take hm
    rw [shuffleAssets] at hsh
    exact hperm.mp hsh

/-- C3: for every entity-based split, the entity sets of the train and
test splits are disjoint and their union is the entity set of the input
dataset. -/
theorem asset_split_partition (seed : Nat) (tf : ℚ) (d : List Row)
    (hne : d ≠ []) :
    (∀ m : Nat, ¬(m ∈ entityIDs (asset_split_op seed tf d).1 ∧
                  m ∈ entityIDs (asset_split_op seed tf d).2)) ∧
    (∀ m : Nat, m ∈ entityIDs d ↔
        (m ∈ entityIDs (asset_split_op seed tf d).1 ∨
         m ∈ entityIDs (asset_split_op seed tf d).2)) := by
  constructor
  · rintro m ⟨htr, hte⟩
    have h1 : m ∈ (splitAssets seed tf d).1 :=
      (mem_entityIDs_filter.mp htr).choose_spec.2.2
    have h2 : m ∈ (splitAssets seed tf d).2 :=
      (mem_entityIDs_filter.mp hte).choose_spec.2.2
    exact splitAssets_disjoint seed tf d h2 h1
  · intro m
    constructor
    · intro hm
      rw [entityIDs, List.mem_map] at hm
      obtain ⟨r, hr, rfl⟩ := hm
      have hu : r.machineID ∈ unique_assets d := mem_unique_assets.mpr ⟨r, hr, rfl⟩
      rcases mem_splitAssets_iff.mp hu with h | h
      · exact Or.inl (mem_entityIDs_filter.mpr ⟨r, hr, rfl, h⟩)
      · exact Or.inr (mem_entityIDs_filter.mpr ⟨r, hr, rfl, h⟩)
    · intro hm
      rcases hm with hm | hm
      · obtain ⟨r, hr, hrm, _⟩ := mem_entityIDs_filter.mp hm
        rw [entityIDs, List.mem_map]
        exact ⟨r, hr, hrm⟩
      · obtain ⟨r, hr, hrm, _⟩ := mem_entityIDs_filter.mp hm
        rw [entityIDs, List.mem_map]
        exact ⟨r, hr, hrm⟩

theorem asset_split_partition_witness :
    (¬(2 ∈ entityIDs (asset_split_op 1 (1/3) dAssets).1 ∧
       2 ∈ entityIDs (asset_split_op 1 (1/3) dAssets).2)) ∧
    (2 ∈ entityIDs dAssets ↔
      (2 ∈ entityIDs (asset_split_op 1 (1/3) dAssets).1 ∨
       2 ∈ entityIDs (asset_split_op 1 (1/3) dAssets).2)) :=
  ⟨(asset_split_partition 1 (1/3) dAssets (by decide)).1 2,
   (asset_split_partition 1 (1/3) dAssets (by decide)).2 2⟩

/-- C8: the entity-based split is a deterministic function of seed,
fraction and dataset (reproducible runs), the time-based split is a
deterministic function of the dataset alone, and with 10 distinct
entities and `test_fraction = 0.2` exactly 2 entities are drawn into the
test subset, the test rows being exactly the rows of those entities. -/
theorem split_determinism (s1 s2 : Nat) (tf1 tf2 : ℚ) (lb : Int)
    (d1 d2 : List Row) :
    (s1 = s2 → tf1 = tf2 → d1 = d2 →
        asset_split_op s1 tf1 d1 = asset_split_op s2 tf2 d2) ∧
    (d1 = d2 → time_split_op lb tf1 d1 = time_split_op lb tf1 d2) ∧
    (∀ (seed : Nat) (d : List Row), (unique_assets d).length = 10 →
        (splitAssets seed (1/5) d).2.length = 2 ∧
        ∀ m : Nat, m ∈ entityIDs (asset_split_op seed (1/5) d).2 ↔
            m ∈ (splitAssets seed (1/5) d).2) := by
  refine ⟨?_, ?_, ?_⟩
  · rintro rfl rfl rfl
    rfl
  · rintro rfl
    rfl
  · intro seed d h10
    have hlen : (shuffleAssets seed (unique_assets d)).length = 10 := by
      rw [shuffleAssets, List.length_rotate, h10]
    have hk : nTestRows (1/5) (shuffleAssets seed (unique_assets d)).length = 2 := by
      rw [hlen, nTestRows]
      norm_num
      rfl
    constructor
    · show (List.take _ _).length = 2
      rw [List.length_take, hk, hlen]
      omega
    · intro m
      constructor
      · intro hm
        exact (mem_entityIDs_filter.mp hm).choose_spec.2.2
      · intro hm
        have hu : m ∈ unique_assets d := by
          have hsh : m ∈ shuffleAssets seed (unique_assets d) :=
            List.mem_of_mem_take hm
          rw [shuffleAssets] at hsh
          exact ((unique_assets d).rotate_perm seed).mem_iff.mp hsh
        obtain ⟨r, hr, hrm⟩ := mem_unique_assets.mp hu
        exact mem_entityIDs_filter.mpr ⟨r, hr, hrm, hm⟩

theorem split_determinism_witness :
    asset_split_op 5 (1/5) dTen = asset_split_op 5 (1/5) dTen ∧
    time_split_op 3 (1/5) dTen = time_split_op 3 (1/5) dTen ∧
    ((splitAssets 5 (1/5) dTen).2.length = 2 ∧
      ∀ m : Nat, m ∈ entityIDs (asset_split_op 5 (1/5) dTen).2 ↔
          m ∈ (splitAssets 5 (1/5) dTen).2) :=
  ⟨(split_determinism 5 5 (1/5) (1/5) 3 dTen dTen).1 rfl rfl rfl,
   (split_determinism 5 5 (1/5) (1/5) 3 dTen dTen).2.1 rfl,
   (split_determinism 5 5 (1/5) (1/5) 3 dTen dTen).2.2 5 dTen (by decide)⟩

/-! ### Claim theorems: originals preserved and hull membership -/

theorem getD_mem_of_ne_nil {pts : List Vec} (h : pts ≠ []) (i : Nat) :
    pts.getD (i % pts.length) [] ∈ pts := by
  have hn : 0 < pts.length := List.length_pos.mpr h
  have hi : i % pts.length < pts.length := Nat.mod_lt _ hn
  rw [List.getD_eq_getElem pts [] hi]
  exact List.getElem_mem hi

theorem synthOne_inHull {pts : List Vec} (s : Nat) (h : pts ≠ []) :
    InHull pts (synthOne pts s) := by
  show InHull pts (interp (pts.getD (s % pts.length) [])
    (pts.getD (lcg s % pts.length) []) (((lcg (lcg s) % 11 : Nat) : ℚ) / 10))
  refine InHull.seg (InHull.base (getD_mem_of_ne_nil h s))
    (InHull.base (getD_mem_of_ne_nil h (lcg s))) (by positivity) ?_
  rw [div_le_one (by norm_num)]
  have : lcg (lcg s) % 11 < 11 := Nat.mod_lt _ (by norm_num)
  exact_mod_cast Nat.le_of_lt_succ this

theorem synthMany_inHull {pts : List Vec} (h : pts ≠ []) :
    ∀ (k s : Nat), ∀ v ∈ synthMany pts s k, InHull pts v := by
  intro k
  induction k with
  | zero => intro s v hv; cases hv
  | succ k ih =>
    intro s v hv
    rcases List.mem_cons.mp hv with rfl | hv
    · exact synthOne_inHull s h
    · exact ih (lcg s) v hv

theorem length_synthMany (pts : List Vec) :
    ∀ (k s : Nat), (synthMany pts s k).length = k := by
  intro k
  induction k with
  | zero => intro s; rfl
  | succ k ih => intro s; simp [synthMany, ih]

theorem sameLabel_ne_nil :
    ∀ (Y : List String) (X : List Vec) (l : String),
      Y.length ≤ X.length → l ∈ Y → sameLabel X Y l ≠ [] := by
  intro Y
  induction Y with
  | nil => intro X l _ h; cases h
  | cons y Y ih =>
    intro X l hlen hl
    cases X with
    | nil => simp at hlen
    | cons x X =>
      rw [sameLabel, List.zip_cons_cons, List.filterMap_cons]
      by_cases hy : y = l
      · rw [if_pos hy]
        exact List.cons_ne_nil _ _
      · rw [if_neg hy]
        rcases List.mem_cons.mp hl with rfl | hl
        · exact absurd rfl hy
        · exact ih X l (Nat.le_of_succ_le_succ hlen) hl

theorem minority_mem_labels {Y : List String} {l : String}
    (h : l ∈ minority_classes Y) : l ∈ Y := by
  rw [minority_classes, List.mem_filter] at h
  exact mem_uniqueFirst.mp h.1

theorem synthAll_inHull (tmf : ℚ) (X : List Vec) (Y : List String)
    (hlen : Y.length ≤ X.length) :
    ∀ (ls : List String) (s : Nat), (∀ l ∈ ls, l ∈ Y) →
      ((synthAll tmf X Y ls s).1.length = (synthAll tmf X Y ls s).2.length) ∧
      ∀ p ∈ (synthAll tmf X Y ls s).1.zip (synthAll tmf X Y ls s).2,
        InHull (sameLabel X Y p.2) p.1 := by
  intro ls
  induction ls with
  | nil =>
    intro s _
    exact ⟨rfl, fun p hp => absurd hp (List.not_mem_nil p)⟩
  | cons l ls ih =>
    intro s h
    obtain ⟨ihlen, ihmem⟩ := ih (lcg s) (fun x hx => h x (List.mem_cons_of_mem _ hx))
    have hpts : sameLabel X Y l ≠ [] :=
      sameLabel_ne_nil Y X l hlen (h l (List.mem_cons_self _ _))
    have hlrep : (synthMany (sameLabel X Y l) s (numSynthFor tmf Y l)).length =
        (List.replicate (numSynthFor tmf Y l) l).length := by
      rw [length_synthMany, List.length_replicate]
    constructor
    · show (synthMany _ s _ ++ _).length = (List.replicate _ l ++ _).length
      rw [List.length_append, List.length_append, hlrep, ihlen]
    · intro p hp
      have hp2 : p ∈ (synthMany (sameLabel X Y l) s (numSynthFor tmf Y l) ++
            (synthAll tmf X Y ls (lcg s)).1).zip
          (List.replicate (numSynthFor tmf Y l) l ++
            (synthAll tmf X Y ls (lcg s)).2) := hp
      rw [List.zip_append hlrep, List.mem_append] at hp2
      rcases hp2 with hp2 | hp2
      · obtain ⟨a, b⟩ := p
        obtain ⟨ha, hb⟩ := List.of_mem_zip hp2
        have hb2 : b = l := List.eq_of_mem_replicate hb
        subst hb2
        exact synthMany_inHull hpts _ s a ha
      · exact ihmem p hp2

/-- C6: every balanced output preserves the original rows unchanged as a
prefix, its row count is the original count plus the number of
synthesized samples, and every synthesized feature vector lies in the
convex hull of the original feature vectors carrying the same label. -/
theorem balance_preserves_originals (tmf : ℚ) (seed : Nat) (X : List Vec)
    (Y : List String) (hlen : Y.length ≤ X.length) :
    ((balance tmf seed X Y).1.take X.length = X ∧
     (balance tmf seed X Y).2.take Y.length = Y) ∧
    ((balance tmf seed X Y).1.length =
      X.length + (synthSamples tmf seed X Y).1.length) ∧
    ((balance tmf seed X Y).1.drop X.length = (synthSamples tmf seed X Y).1) ∧
    ∀ p ∈ ((balance tmf seed X Y).1.drop X.length).zip
          ((balance tmf seed X Y).2.drop Y.length),
      InHull (sameLabel X Y p.2) p.1 := by
  by_cases hs : scale tmf Y ≤ 1
  · rw [balance_eq_of_scale_le_one seed X Y hs]
    rw [synthSamples, if_pos hs]
    refine ⟨⟨by simp, by simp⟩, by simp, by simp, ?_⟩
    intro p hp
    show InHull (sameLabel X Y p.2) p.1
    rw [show (X, Y).1.drop X.length = ([] : List Vec) from by simp] at hp
    simp at hp
  · have hb : balance tmf seed X Y =
        (X ++ (synthAll tmf X Y (minority_classes Y) seed).1,
         Y ++ (synthAll tmf X Y (minority_classes Y) seed).2) := by
      rw [balance, if_neg hs]
    have hss : (synthSamples tmf seed X Y).1 =
        (synthAll tmf X Y (minority_classes Y) seed).1 := by
      rw [synthSamples, if_neg hs]
    obtain ⟨hl, hmem⟩ := synthAll_inHull tmf X Y hlen (minority_classes Y) seed
      (fun l hml => minority_mem_labels hml)
    rw [hb, hss]
    refine ⟨⟨List.take_left X _, List.take_left Y _⟩, ?_, ?_, ?_⟩
    · show (X ++ _).length = _
      rw [List.length_append]
    · exact List.drop_left X _
    · intro p hp
      rw [List.drop_left, List.drop_left] at hp
      exact hmem p hp

theorem balance_preserves_originals_witness :
    ((balance (9/10) 11 X6 Y6).1.take X6.length = X6 ∧
     (balance (9/10) 11 X6 Y6).2.take Y6.length = Y6) ∧
    ((balance (9/10) 11 X6 Y6).1.length =
      X6.length + (synthSamples (9/10) 11 X6 Y6).1.length) ∧
    ((balance (9/10) 11 X6 Y6).1.drop X6.length = (synthSamples (9/10) 11 X6 Y6).1) ∧
    ∀ p ∈ ((balance (9/10) 11 X6 Y6).1.drop X6.length).zip
          ((balance (9/10) 11 X6 Y6).2.drop Y6.length),
      InHull (sameLabel X6 Y6 p.2) p.1 :=
  balance_preserves_originals (9/10) 11 X6 Y6 (by decide)

/-! ### Claim theorems: the concrete balancing scenario -/

set_option maxRecDepth 10000

theorem balance_eq_of_scale_gt_one {tmf : ℚ} (seed : Nat) (X : List Vec)
    (Y : List String) (hs : ¬ scale tmf Y ≤ 1) :
    balance tmf seed X Y =
      (X ++ (synthAll tmf X Y (minority_classes Y) seed).1,
       Y ++ (synthAll tmf X Y (minority_classes Y) seed).2) := by
  rw [balance, if_neg hs]

/-- C5: on the input with label counts 100 of the majority label, 5 of
`F1` and 3 of `F2`, with target fraction `0.2`, the balancer computes
`minority_total = 8` and `scale = 2.7`, per-label targets 13 for `F1` and
8 for `F2`, and produces label counts 100, 13 and 8, never touching the
majority rows and keeping the originals. -/
theorem balance_scenario_counts :
    minority_classes_size Y5 = 8 ∧
    scale (1/5) Y5 = 27/10 ∧
    targetCount (1/5) Y5 "F1" = 13 ∧
    targetCount (1/5) Y5 "F2" = 8 ∧
    (balance (1/5) 42 X5 Y5).2.count "" = 100 ∧
    (balance (1/5) 42 X5 Y5).2.count "F1" = 13 ∧
    (balance (1/5) 42 X5 Y5).2.count "F2" = 8 ∧
    (balance (1/5) 42 X5 Y5).1.take 108 = X5 := by
  have hm : minority_classes Y5 = ["F1", "F2"] := by decide
  have hsize : minority_classes_size Y5 = 8 := by
    rw [minority_classes_size, hm]
    decide
  have hlen : Y5.length = 108 := by decide
  have hscale : scale (1/5) Y5 = 27/10 := by
    rw [scale, desired_minority_classes_size, hsize, hlen]
    norm_num
  have hc1 : Y5.count "F1" = 5 := by decide
  have hc2 : Y5.count "F2" = 3 := by decide
  have ht1 : targetCount (1/5) Y5 "F1" = 13 := by
    rw [targetCount, hscale, hc1]
    norm_num
    rfl
  have ht2 : targetCount (1/5) Y5 "F2" = 8 := by
    rw [targetCount, hscale, hc2]
    norm_num
    rfl
  have hs1 : numSynthFor (1/5) Y5 "F1" = 8 := by
    rw [numSynthFor, ht1, hc1]
  have hs2 : numSynthFor (1/5) Y5 "F2" = 5 := by
    rw [numSynthFor, ht2, hc2]
  have hslt : ¬ scale (1/5) Y5 ≤ 1 := by
    rw [hscale]
    norm_num
  have hY : (balance (1/5) 42 X5 Y5).2 =
      Y5 ++ (List.replicate 8 "F1" ++ (List.replicate 5 "F2" ++ [])) := by
    rw [balance_eq_of_scale_gt_one 42 X5 Y5 hslt, hm]
    simp only [synthAll, hs1, hs2]
  have hX : (balance (1/5) 42 X5 Y5).1.take 108 = X5 := by
    rw [balance_eq_of_scale_gt_one 42 X5 Y5 hslt]
    have h108 : X5.length = 108 := by decide
    show (X5 ++ _).take 108 = X5
    rw [← h108, List.take_left]
  refine ⟨hsize, hscale, ht1, ht2, ?_, ?_, ?_, hX⟩
  · rw [hY]
    decide
  · rw [hY]
    decide
  · rw [hY]
    decide

end ModelTraining
